import Mathlib

/-!
Shallow embedding of `examples/python/rate_limiting_utilities.py`.

Modelling conventions:
* Python `int` is `ℤ`, Python `float` and clock readings (`time.time()`) are `ℚ`
  (exact arithmetic; the places where IEEE-754 behaviour is essential — the
  int-to-float conversion and `2.0 ** attempt` in
  `ExponentialBackoff.get_delay_ms` — are modelled explicitly, see `flDouble` and
  `ExponentialBackoff.getDelayMs`).
* Python `int(x)` truncates toward zero: `pyTrunc`.
* Methods that read the clock take `now : ℚ` as an explicit argument; mutation is
  explicit state passing (the per-instance `Lock` serialises calls, so the
  sequential model is the linearised behaviour).
* Operations that can raise return `Except String _`, the string naming the
  Python exception; operations with no failure path are total functions.
-/

/-- Python `int(x)` applied to a real value: truncation toward zero. -/
def pyTrunc (q : ℚ) : ℤ := if q < 0 then ⌈q⌉ else ⌊q⌋

/-- State of `TokenBucket`: fields `capacity`, `tokens`, `refill_rate`, `last_refill`. -/
structure TokenBucket where
  capacity : ℤ
  tokens : ℤ
  refillRate : ℚ
  lastRefill : ℚ

/-- `TokenBucket.__init__`: stores `capacity` and `refill_rate` verbatim (no
validation anywhere in the constructor), sets `tokens = capacity` and
`last_refill = time.time()` (the `now` argument). -/
def TokenBucket.init (capacity : ℤ) (refillRate : ℚ) (now : ℚ) : TokenBucket :=
  { capacity := capacity, tokens := capacity, refillRate := refillRate, lastRefill := now }

/-- The refill block at the top of `TokenBucket.try_acquire`:
`tokens_to_add = int(elapsed * refill_rate)`; if positive, clamp-add and advance
`last_refill`; otherwise leave the state alone. -/
def TokenBucket.refill (b : TokenBucket) (now : ℚ) : TokenBucket :=
  let elapsed := now - b.lastRefill
  let tokensToAdd := pyTrunc (elapsed * b.refillRate)
  if 0 < tokensToAdd then
    { b with tokens := min (b.tokens + tokensToAdd) b.capacity, lastRefill := now }
  else b

/-- `TokenBucket.try_acquire(num_tokens=1)`: refill, then admit (subtract, return
`True`) iff `tokens >= num_tokens`, else return `False` with only the refill applied. -/
def TokenBucket.tryAcquire (b : TokenBucket) (now : ℚ) (numTokens : ℤ) : Bool × TokenBucket :=
  let b1 := b.refill now
  if numTokens ≤ b1.tokens then (true, { b1 with tokens := b1.tokens - numTokens })
  else (false, b1)

/-- `TokenBucket.time_until_available_ms`: `0` if `tokens > 0`, otherwise
`int(1.0 / refill_rate * 1000)`; the division raises `ZeroDivisionError` when
`refill_rate == 0.0`. -/
def TokenBucket.timeUntilAvailableMs (b : TokenBucket) : Except String ℤ :=
  if 0 < b.tokens then .ok 0
  else if b.refillRate = 0 then .error "ZeroDivisionError"
  else .ok (pyTrunc (1 / b.refillRate * 1000))

/-- A sequence of `try_acquire` calls: each list entry is the clock reading at the
call together with the requested `num_tokens`. -/
def TokenBucket.runAcquires (b : TokenBucket) : List (ℚ × ℤ) → TokenBucket
  | [] => b
  | op :: rest => TokenBucket.runAcquires (b.tryAcquire op.1 op.2).2 rest

/-- State of `SlidingWindow`: fields `max_requests`, `window_duration`, and the
request log `requests` (a deque of timestamps, oldest first). -/
structure SlidingWindow where
  maxRequests : ℤ
  windowDuration : ℚ
  requests : List ℚ

/-- `SlidingWindow.__init__`: stores the parameters verbatim, empty log. -/
def SlidingWindow.init (maxRequests : ℤ) (windowDuration : ℚ) : SlidingWindow :=
  { maxRequests := maxRequests, windowDuration := windowDuration, requests := [] }

/-- The `while self.requests and now - self.requests[0] > self.window_duration:
self.requests.popleft()` loop: pop entries from the front while the front entry is
strictly older than the window. -/
def pruneLog (now windowDuration : ℚ) : List ℚ → List ℚ
  | [] => []
  | t :: rest => if windowDuration < now - t then pruneLog now windowDuration rest else t :: rest

/-- `SlidingWindow.try_acquire`: prune, then admit (append `now`, return `True`)
iff the pruned log is shorter than `max_requests`; on denial the pruned log is kept. -/
def SlidingWindow.tryAcquire (w : SlidingWindow) (now : ℚ) : Bool × SlidingWindow :=
  let pruned := pruneLog now w.windowDuration w.requests
  if (pruned.length : ℤ) < w.maxRequests then
    (true, { w with requests := pruned ++ [now] })
  else
    (false, { w with requests := pruned })

/-- `SlidingWindow.current_requests`: same pruning, returns the resulting length
(and, like the source, keeps the pruned log — this is a mutating read). -/
def SlidingWindow.currentRequests (w : SlidingWindow) (now : ℚ) : ℤ × SlidingWindow :=
  let pruned := pruneLog now w.windowDuration w.requests
  ((pruned.length : ℤ), { w with requests := pruned })

/-- State of `PerMethodLimiter`: the dict `limiters`, modelled as an association
list from method name to its `TokenBucket` (lookup by string equality). -/
structure PerMethodLimiter where
  limiters : List (String × TokenBucket)

/-- `PerMethodLimiter.__init__`: empty dict. -/
def PerMethodLimiter.init : PerMethodLimiter := { limiters := [] }

/-- `PerMethodLimiter.register_method`: `self.limiters[method] = TokenBucket(...)` —
overwrites any existing entry for `method`. -/
def PerMethodLimiter.registerMethod (p : PerMethodLimiter) (method : String)
    (capacity : ℤ) (refillRate : ℚ) (now : ℚ) : PerMethodLimiter :=
  { limiters := (method, TokenBucket.init capacity refillRate now)
      :: p.limiters.filter (fun e => e.1 != method) }

/-- `PerMethodLimiter.try_acquire(method)`: if `method in self.limiters`, delegate to
the `try_acquire()` of that bucket (default `num_tokens = 1`) and store the mutated
bucket back; otherwise return `True` ("Method not registered, allow it"). -/
def PerMethodLimiter.tryAcquire (p : PerMethodLimiter) (method : String) (now : ℚ) :
    Bool × PerMethodLimiter :=
  match p.limiters.lookup method with
  | some b =>
      let r := b.tryAcquire now 1
      (r.1, { limiters := p.limiters.map (fun e => if e.1 == method then (e.1, r.2) else e) })
  | none => (true, p)

/-- State of `ExponentialBackoff`: `initial_delay_ms`, `max_delay_ms`, `attempt`.
The field `multiplier` is the constant `2.0` and is inlined below. -/
structure ExponentialBackoff where
  initialDelayMs : ℤ
  maxDelayMs : ℤ
  attempt : ℕ

/-- `ExponentialBackoff.__init__`: stores the delays verbatim, `attempt = 0`. -/
def ExponentialBackoff.init (initialDelayMs maxDelayMs : ℤ) : ExponentialBackoff :=
  { initialDelayMs := initialDelayMs, maxDelayMs := maxDelayMs, attempt := 0 }

/-- The value CPython gives a Python `int` when it is converted to a `float`
(as `float.__rmul__` does to `initial_delay_ms` below): round the magnitude to 53
significant bits, ties to even. Exact (the identity) for `|I| < 2 ^ 53`; for larger
`|I|` the magnitude is cut at `ulp = 2 ^ (log2 |I| - 52)` and rounded half-even, a
carry possibly reaching the next power of two. Whether the rounded magnitude
overflows the double range (`≥ 2 ^ 1024`, where CPython raises `OverflowError`
during the conversion) is checked at the use site. -/
def flDouble (I : ℤ) : ℤ :=
  let a := I.natAbs
  if a < 2 ^ 53 then I
  else
    let ulp := 2 ^ (Nat.log2 a - 52)
    let q := a / ulp
    let r := a % ulp
    let rounded :=
      if 2 * r < ulp then q * ulp
      else if ulp < 2 * r then (q + 1) * ulp
      else if q % 2 = 0 then q * ulp else (q + 1) * ulp
    if I < 0 then -(rounded : ℤ) else (rounded : ℤ)

/-- `ExponentialBackoff.get_delay_ms`:
`delay = int(self.initial_delay_ms * (self.multiplier ** self.attempt))` followed by
`min(delay, self.max_delay_ms)`, under CPython float semantics for the fixed
multiplier `2.0`, in evaluation order:
* `2.0 ** attempt` is an exactly representable IEEE-754 double for `attempt ≤ 1023`
  and raises `OverflowError` for `attempt ≥ 1024` (CPython raises instead of
  returning `inf` for float power overflow);
* the `int * float` product converts `initial_delay_ms` to a double: the value
  becomes `flDouble initial_delay_ms`, and the conversion itself raises
  `OverflowError` when the rounded magnitude reaches `2 ^ 1024`;
* multiplying that double by `2.0 ** attempt` only shifts its exponent, so the
  product is exact unless its magnitude reaches `2 ^ 1024`, where it becomes `±inf`
  and `int(±inf)` raises `OverflowError`;
* `int(...)` of the exact integer-valued double is the integer itself, and `min` of
  two Python ints is exact. -/
def ExponentialBackoff.getDelayMs (b : ExponentialBackoff) : Except String ℤ :=
  if 1024 ≤ b.attempt then .error "OverflowError"
  else if 2 ^ 1024 ≤ (flDouble b.initialDelayMs).natAbs then .error "OverflowError"
  else if 2 ^ 1024 ≤ (flDouble b.initialDelayMs * 2 ^ b.attempt).natAbs then
    .error "OverflowError"
  else .ok (min (flDouble b.initialDelayMs * 2 ^ b.attempt) b.maxDelayMs)

/-- `ExponentialBackoff.next_attempt`: `self.attempt += 1`. -/
def ExponentialBackoff.nextAttempt (b : ExponentialBackoff) : ExponentialBackoff :=
  { b with attempt := b.attempt + 1 }

/-- `ExponentialBackoff.reset`: `self.attempt = 0`. -/
def ExponentialBackoff.reset (b : ExponentialBackoff) : ExponentialBackoff :=
  { b with attempt := 0 }

/-- `ExponentialBackoff.should_retry`: `self.attempt < 10`. -/
def ExponentialBackoff.shouldRetry (b : ExponentialBackoff) : Bool :=
  b.attempt < 10

/-- State of `AdaptiveRateLimiter`: `current_rate`, `min_rate`, `max_rate`.
`decrease_factor = 0.5` and `increase_factor = 1.1` are constants; `0.5` is an exact
double, `1.1` is modelled by the exact rational `11/10` (the double `1.1` differs
from it by < 9e-17, a difference the clamped invariant proofs and the
counterexample below are insensitive to). -/
structure AdaptiveRateLimiter where
  currentRate : ℚ
  minRate : ℚ
  maxRate : ℚ

/-- `AdaptiveRateLimiter.__init__`: stores the three rates verbatim (no validation). -/
def AdaptiveRateLimiter.init (initialRate minRate maxRate : ℚ) : AdaptiveRateLimiter :=
  { currentRate := initialRate, minRate := minRate, maxRate := maxRate }

/-- `AdaptiveRateLimiter.record_success`:
`current_rate = min(current_rate * increase_factor, max_rate)` with `increase_factor = 1.1`. -/
def AdaptiveRateLimiter.recordSuccess (a : AdaptiveRateLimiter) : AdaptiveRateLimiter :=
  { a with currentRate := min (a.currentRate * (11 / 10)) a.maxRate }

/-- `AdaptiveRateLimiter.record_rate_limit_error`:
`current_rate = max(current_rate * decrease_factor, min_rate)` with `decrease_factor = 0.5`. -/
def AdaptiveRateLimiter.recordRateLimitError (a : AdaptiveRateLimiter) : AdaptiveRateLimiter :=
  { a with currentRate := max (a.currentRate * (1 / 2)) a.minRate }

/-- A sequence of feedback calls: `true` is `record_success`, `false` is
`record_rate_limit_error`. -/
def AdaptiveRateLimiter.run (a : AdaptiveRateLimiter) : List Bool → AdaptiveRateLimiter
  | [] => a
  | ev :: rest => AdaptiveRateLimiter.run (if ev then a.recordSuccess else a.recordRateLimitError) rest

/-! ### Helper lemmas -/

lemma pyTrunc_eq_floor (q : ℚ) (h : 0 ≤ q) : pyTrunc q = ⌊q⌋ := by
  simp [pyTrunc, not_lt.mpr h]

lemma pyTrunc_pos_iff (q : ℚ) : 0 < pyTrunc q ↔ 0 < ⌊q⌋ := by
  unfold pyTrunc
  split
  · rename_i h
    have h1 : ⌈q⌉ ≤ 0 := Int.ceil_le.mpr (by exact_mod_cast h.le)
    have h2 : ⌊q⌋ ≤ ⌈q⌉ := Int.floor_le_ceil q
    omega
  · exact Iff.rfl

lemma TokenBucket.refill_capacity (b : TokenBucket) (now : ℚ) :
    (b.refill now).capacity = b.capacity := by
  simp only [TokenBucket.refill]; split <;> rfl

lemma TokenBucket.refill_rate (b : TokenBucket) (now : ℚ) :
    (b.refill now).refillRate = b.refillRate := by
  simp only [TokenBucket.refill]; split <;> rfl

lemma TokenBucket.refill_tokens_nonneg (b : TokenBucket) (now : ℚ)
    (h0 : 0 ≤ b.tokens) (hc : 0 ≤ b.capacity) : 0 ≤ (b.refill now).tokens := by
  simp only [TokenBucket.refill]
  split
  · rename_i h
    exact le_min (by omega) hc
  · exact h0

lemma TokenBucket.refill_tokens_le (b : TokenBucket) (now : ℚ)
    (h1 : b.tokens ≤ b.capacity) : (b.refill now).tokens ≤ b.capacity := by
  simp only [TokenBucket.refill]
  split
  · exact min_le_right _ _
  · exact h1

lemma TokenBucket.tryAcquire_capacity (b : TokenBucket) (now : ℚ) (n : ℤ) :
    ((b.tryAcquire now n).2).capacity = b.capacity := by
  simp only [TokenBucket.tryAcquire]
  split <;> simp [TokenBucket.refill_capacity]

lemma TokenBucket.tryAcquire_tokens_nonneg (b : TokenBucket) (now : ℚ) (n : ℤ)
    (h0 : 0 ≤ b.tokens) (hc : 0 ≤ b.capacity) : 0 ≤ ((b.tryAcquire now n).2).tokens := by
  simp only [TokenBucket.tryAcquire]
  split
  · rename_i h; simpa using sub_nonneg.mpr h
  · exact b.refill_tokens_nonneg now h0 hc

lemma TokenBucket.tryAcquire_tokens_le (b : TokenBucket) (now : ℚ) (n : ℤ)
    (h1 : b.tokens ≤ b.capacity) (hn : 0 ≤ n) :
    ((b.tryAcquire now n).2).tokens ≤ b.capacity := by
  simp only [TokenBucket.tryAcquire]
  split
  · rename_i h
    have := b.refill_tokens_le now h1
    simp only
    omega
  · exact b.refill_tokens_le now h1

lemma TokenBucket.runAcquires_capacity (ops : List (ℚ × ℤ)) (b : TokenBucket) :
    (b.runAcquires ops).capacity = b.capacity := by
  induction ops generalizing b with
  | nil => rfl
  | cons op rest ih =>
      rw [TokenBucket.runAcquires, ih, TokenBucket.tryAcquire_capacity]

lemma TokenBucket.runAcquires_tokens_nonneg (ops : List (ℚ × ℤ)) (b : TokenBucket)
    (h0 : 0 ≤ b.tokens) (hc : 0 ≤ b.capacity) : 0 ≤ (b.runAcquires ops).tokens := by
  induction ops generalizing b with
  | nil => exact h0
  | cons op rest ih =>
      rw [TokenBucket.runAcquires]
      exact ih _ (b.tryAcquire_tokens_nonneg op.1 op.2 h0 hc)
        (by rw [TokenBucket.tryAcquire_capacity]; exact hc)

lemma TokenBucket.runAcquires_tokens_le (ops : List (ℚ × ℤ)) (b : TokenBucket)
    (h0 : b.tokens ≤ b.capacity) (hn : ∀ p ∈ ops, 0 ≤ p.2) :
    (b.runAcquires ops).tokens ≤ (b.runAcquires ops).capacity := by
  induction ops generalizing b with
  | nil => exact h0
  | cons op rest ih =>
      rw [TokenBucket.runAcquires]
      refine ih _ ?_ (fun p hp => hn p (List.mem_cons_of_mem _ hp))
      rw [TokenBucket.tryAcquire_capacity]
      exact b.tryAcquire_tokens_le op.1 op.2 h0 (hn op (List.mem_cons_self _ _))

/-! ### Claims about `TokenBucket.try_acquire` -/

/-- **C3.** `try_acquire(n)` at a clock reading `elapsed = e ≥ 0` past `last_refill`:
it derives `tokensToAdd = floor(e * refillRate)`; if that is positive it clamp-adds
it to `tokens` and advances `lastRefill` to now, otherwise it leaves `lastRefill`
(and `tokens`) alone; then it admits and subtracts `n` iff the (possibly refilled)
`tokens` is at least `n`, and otherwise denies with no state change beyond the
refill. (The source computes `int(e * rate)`, truncation toward zero; that agrees
with `floor` on every branch taken, because a truncation is positive exactly when
the floor is, and the two coincide there.) -/
theorem tryAcquire_refill_then_decide_spec (b : TokenBucket) (e : ℚ) (n : ℤ)
    (_he : 0 ≤ e) :
    b.tryAcquire (b.lastRefill + e) n =
      (let add := ⌊e * b.refillRate⌋
       let t1 := if 0 < add then min (b.tokens + add) b.capacity else b.tokens
       let lr1 := if 0 < add then b.lastRefill + e else b.lastRefill
       if n ≤ t1 then (true, ⟨b.capacity, t1 - n, b.refillRate, lr1⟩)
       else (false, ⟨b.capacity, t1, b.refillRate, lr1⟩)) := by
  have hel : b.lastRefill + e - b.lastRefill = e := by ring
  by_cases hpos : 0 < ⌊e * b.refillRate⌋
  · have hq : (0 : ℚ) ≤ e * b.refillRate := Int.floor_nonneg.mp hpos.le
    have heq : pyTrunc (e * b.refillRate) = ⌊e * b.refillRate⌋ := pyTrunc_eq_floor _ hq
    simp only [TokenBucket.tryAcquire, TokenBucket.refill, hel, heq, if_pos hpos]
  · have hneg : ¬ 0 < pyTrunc (e * b.refillRate) := by
      rw [pyTrunc_pos_iff]; exact hpos
    simp only [TokenBucket.tryAcquire, TokenBucket.refill, hel, if_neg hneg, if_neg hpos]

/-- Witness for C3 at `tokens = 0`, `capacity = 2`, `refillRate = 2`, `e = 1`, `n = 1`:
one second refills 2 tokens (clamped to 2), the request is admitted and one token
remains, `lastRefill` advanced. -/
theorem tryAcquire_refill_then_decide_spec_witness :
    TokenBucket.tryAcquire ⟨2, 0, 2, 0⟩ (0 + 1) 1 = (true, ⟨2, 1, 2, 1⟩) := by
  refine (tryAcquire_refill_then_decide_spec ⟨2, 0, 2, 0⟩ 1 1 (by norm_num)).trans ?_
  have h2 : ⌊(1 : ℚ) * (2 : ℚ)⌋ = 2 := by
    rw [show ((1 : ℚ) * 2) = ((2 : ℤ) : ℚ) by norm_num, Int.floor_intCast]
  simp only [h2]
  norm_num

/-- **C4.** Starting from `TokenBucket(C, R)` with `C ≥ 1`, after any sequence of
`try_acquire(n)` calls with each `n ≥ 1`, at arbitrary clock readings (arbitrarily
large elapsed times included), the invariant `0 ≤ tokens ≤ C` holds at every
observation point (every prefix of the call sequence). -/
theorem tokens_in_range_invariant (C : ℤ) (R t0 : ℚ) (ops : List (ℚ × ℤ)) (k : ℕ)
    (hC : 1 ≤ C) (hops : ∀ p ∈ ops, 1 ≤ p.2) :
    0 ≤ ((TokenBucket.init C R t0).runAcquires (ops.take k)).tokens ∧
      ((TokenBucket.init C R t0).runAcquires (ops.take k)).tokens ≤ C := by
  have hops' : ∀ p ∈ ops.take k, 0 ≤ p.2 :=
    fun p hp => le_trans (by norm_num) (hops p (List.take_subset k ops hp))
  constructor
  · exact TokenBucket.runAcquires_tokens_nonneg _ _ (by simp [TokenBucket.init]; omega)
      (by simp [TokenBucket.init]; omega)
  · have h := TokenBucket.runAcquires_tokens_le (ops.take k) (TokenBucket.init C R t0)
      (le_refl _) hops'
    rwa [TokenBucket.runAcquires_capacity] at h

/-- Witness for C4: capacity 2, rate 1, three calls (one with a huge elapsed time),
observed after the second call. -/
theorem tokens_in_range_invariant_witness :
    0 ≤ ((TokenBucket.init 2 1 0).runAcquires ([((5 : ℚ), (1 : ℤ)), (1000000, 1), (1000001, 2)].take 2)).tokens ∧
      ((TokenBucket.init 2 1 0).runAcquires ([((5 : ℚ), (1 : ℤ)), (1000000, 1), (1000001, 2)].take 2)).tokens ≤ 2 :=
  tokens_in_range_invariant 2 1 0 _ 2 (by norm_num)
    (by intro p hp; fin_cases hp <;> norm_num)

/-- **C10.** (Implicit claim.) In any state reachable from a construction
`TokenBucket(C, R)` with `C ≥ 0` through `try_acquire` calls, `try_acquire(0)`
returns `True` and changes the state only by the refill computation: the public
entry point does not enforce the documented precondition `n ≥ 1`, and `n = 0` is
silently admitted (`tokens - 0 = tokens`). -/
theorem tryAcquire_zero_always_admits (C : ℤ) (R t0 now : ℚ) (ops : List (ℚ × ℤ))
    (hC : 0 ≤ C) :
    ((TokenBucket.init C R t0).runAcquires ops).tryAcquire now 0 =
      (true, ((TokenBucket.init C R t0).runAcquires ops).refill now) := by
  set b := (TokenBucket.init C R t0).runAcquires ops with hb
  have h0 : 0 ≤ b.tokens :=
    TokenBucket.runAcquires_tokens_nonneg _ _ (by simp [TokenBucket.init, hC]) (by simp [TokenBucket.init, hC])
  have hcap : 0 ≤ b.capacity := by
    rw [hb, TokenBucket.runAcquires_capacity]; simp [TokenBucket.init, hC]
  have h1 : (0 : ℤ) ≤ (b.refill now).tokens := b.refill_tokens_nonneg now h0 hcap
  simp only [TokenBucket.tryAcquire]
  rw [if_pos h1]
  simp

/-- Witness for C10: a freshly drained bucket still admits `try_acquire(0)`. -/
theorem tryAcquire_zero_always_admits_witness :
    ((TokenBucket.init 1 1 0).runAcquires [(0, 1)]).tryAcquire 0 0 =
      (true, ((TokenBucket.init 1 1 0).runAcquires [(0, 1)]).refill 0) :=
  tryAcquire_zero_always_admits 1 1 0 0 [(0, 1)] (by norm_num)

/-! ### Claims about `SlidingWindow` and `PerMethodLimiter` -/

lemma pruneLog_eq_filter (now wd : ℚ) (l : List ℚ) (hs : l.Sorted (· ≤ ·)) :
    pruneLog now wd l = l.filter (fun t => now - t ≤ wd) := by
  induction l with
  | nil => rfl
  | cons t rest ih =>
      rw [List.sorted_cons] at hs
      obtain ⟨hhead, hrest⟩ := hs
      rw [pruneLog, List.filter_cons]
      by_cases h : wd < now - t
      · rw [if_pos h, ih hrest]
        simp [not_le.mpr h]
      · push_neg at h
        rw [if_neg (not_lt.mpr h)]
        have hall : List.filter (fun u => decide (now - u ≤ wd)) rest = rest :=
          List.filter_eq_self.mpr
            (fun u hu => decide_eq_true (by have := hhead u hu; linarith))
        rw [if_pos (decide_eq_true h), hall]

/-- **C6.** For a log whose timestamps are sorted oldest-first (the monotone-clock
regime every reachable log is in), `try_acquire` at clock reading `now` first drops
exactly the entries strictly older than `window_duration`, then admits and appends
`now` iff the pruned length is `< max_requests`, and on denial keeps the pruned
(but otherwise unchanged) log. -/
theorem slidingWindow_tryAcquire_spec (w : SlidingWindow) (now : ℚ)
    (hs : w.requests.Sorted (· ≤ ·)) :
    w.tryAcquire now =
      (let pruned := w.requests.filter (fun t => now - t ≤ w.windowDuration)
       if (pruned.length : ℤ) < w.maxRequests then
         (true, ⟨w.maxRequests, w.windowDuration, pruned ++ [now]⟩)
       else (false, ⟨w.maxRequests, w.windowDuration, pruned⟩)) := by
  simp only [SlidingWindow.tryAcquire,
    pruneLog_eq_filter now w.windowDuration w.requests hs]

/-- Witness for C6: a window of capacity 2 holding one stale entry admits a request
five seconds later, having pruned the stale entry. -/
theorem slidingWindow_tryAcquire_spec_witness :
    SlidingWindow.tryAcquire ⟨2, 1, [0]⟩ 5 = (true, ⟨2, 1, [5]⟩) := by
  refine (slidingWindow_tryAcquire_spec ⟨2, 1, [0]⟩ 5 (by simp)).trans ?_
  norm_num [List.filter]

/-- **C7.** `PerMethodLimiter.try_acquire(name)`: an unregistered name is admitted
unconditionally (fail-open), and a registered name returns exactly what the stored
stored bucket returns from `try_acquire` with `num_tokens = 1`. -/
theorem perMethodLimiter_tryAcquire_spec (p : PerMethodLimiter) (method : String)
    (now : ℚ) :
    (p.limiters.lookup method = none → p.tryAcquire method now = (true, p)) ∧
    (∀ b, p.limiters.lookup method = some b →
      (p.tryAcquire method now).1 = (b.tryAcquire now 1).1) := by
  constructor
  · intro h
    simp [PerMethodLimiter.tryAcquire, h]
  · intro b h
    simp [PerMethodLimiter.tryAcquire, h]

/-- Witness for C7: with only `"m"` registered, `"other"` is fail-open admitted and
`"m"` delegates to its bucket. -/
theorem perMethodLimiter_tryAcquire_spec_witness :
    (PerMethodLimiter.tryAcquire ⟨[("m", TokenBucket.init 1 1 0)]⟩ "other" 0 =
      (true, ⟨[("m", TokenBucket.init 1 1 0)]⟩)) ∧
    ((PerMethodLimiter.tryAcquire ⟨[("m", TokenBucket.init 1 1 0)]⟩ "m" 0).1 =
      ((TokenBucket.init 1 1 0).tryAcquire 0 1).1) :=
  ⟨(perMethodLimiter_tryAcquire_spec ⟨[("m", TokenBucket.init 1 1 0)]⟩ "other" 0).1 rfl,
   (perMethodLimiter_tryAcquire_spec ⟨[("m", TokenBucket.init 1 1 0)]⟩ "m" 0).2
     (TokenBucket.init 1 1 0) rfl⟩

/-! ### Claims about `ExponentialBackoff` -/

lemma nextAttempt_iterate (k : ℕ) (b : ExponentialBackoff) :
    (ExponentialBackoff.nextAttempt^[k] b).attempt = b.attempt + k := by
  induction k generalizing b with
  | zero => simp
  | succ k ih =>
      rw [Function.iterate_succ_apply, ih]
      simp [ExponentialBackoff.nextAttempt]
      omega

/-- **C5 counterexample.** The state with `attempt = 1024` is reachable from
`ExponentialBackoff(100, 30000)` by 1024 `next_attempt()` calls (`next_attempt`
enforces no upper bound), and there `get_delay_ms` raises `OverflowError`:
in CPython, `2.0 ** 1024` overflows the IEEE-754 double range and float power
overflow raises rather than returning `inf`. -/
theorem getDelayMs_overflow_at_1024 :
    (ExponentialBackoff.nextAttempt^[1024] (ExponentialBackoff.init 100 30000)).getDelayMs
      = Except.error "OverflowError" := by
  have h : (ExponentialBackoff.nextAttempt^[1024]
      (ExponentialBackoff.init 100 30000)).attempt = 1024 := by
    rw [nextAttempt_iterate]
    rfl
  unfold ExponentialBackoff.getDelayMs
  rw [h, if_pos (by norm_num)]

lemma flDouble_eq_self (I : ℤ) (h : I.natAbs < 2 ^ 53) : flDouble I = I := by
  simp only [flDouble]
  rw [if_pos h]

lemma natAbs_le_natAbs_mul_pow (x : ℤ) (n : ℕ) :
    x.natAbs ≤ (x * 2 ^ n).natAbs := by
  rw [Int.natAbs_mul]
  have h2 : 0 < ((2 : ℤ) ^ n).natAbs := by
    rw [Int.natAbs_pow]
    positivity
  exact Nat.le_mul_of_pos_right _ h2

/-- The rounding of the int-to-float conversion at the smallest integer the double
format cannot represent: `2 ^ 53 + 1` lies exactly halfway between the adjacent
doubles `2 ^ 53` and `2 ^ 53 + 2`, and the half-even tie goes to `2 ^ 53`. -/
lemma flDouble_pow53_add_one : flDouble (2 ^ 53 + 1) = 2 ^ 53 := by
  have hne : (2 ^ 53 + 1 : ℕ) ≠ 0 := by positivity
  have hlog : Nat.log2 (2 ^ 53 + 1) = 53 := by
    have h1 : 53 ≤ Nat.log2 (2 ^ 53 + 1) := (Nat.le_log2 hne).mpr (by norm_num)
    have h2 : Nat.log2 (2 ^ 53 + 1) < 54 := (Nat.log2_lt hne).mpr (by norm_num)
    omega
  have hab : ((2 : ℤ) ^ 53 + 1).natAbs = 2 ^ 53 + 1 := by
    rw [show ((2 : ℤ) ^ 53 + 1) = ((2 ^ 53 + 1 : ℕ) : ℤ) by push_cast]
    exact Int.natAbs_ofNat _
  simp only [flDouble]
  rw [hab, hlog]
  norm_num

/-- **C5 amended.** `try_acquire` (for every limiter modelled here) is a total
function of the state — denial is an ordinary return value, not an exception — and
`get_delay_ms` also returns a value on every state below the double-overflow
boundary: whenever `attempt ≤ 1023` and the float-converted initial delay satisfies
`|flDouble initial_delay_ms| * 2 ^ attempt < 2 ^ 1024` (so in particular whenever
`|initial_delay_ms| < 2 ^ 53` — the exactly-converted regime — and
`|initial_delay_ms| * 2 ^ attempt < 2 ^ 1024`). Beyond the boundary CPython raises
`OverflowError`: at `attempt ≥ 1024` in the float power, and otherwise in the
int-to-float conversion or in `int(±inf)`; see the counterexample. -/
theorem getDelayMs_total_below_1024 (b : ExponentialBackoff)
    (hA : b.attempt ≤ 1023)
    (hof : (flDouble b.initialDelayMs * 2 ^ b.attempt).natAbs < 2 ^ 1024) :
    ∃ d : ℤ, b.getDelayMs = Except.ok d := by
  refine ⟨min (flDouble b.initialDelayMs * 2 ^ b.attempt) b.maxDelayMs, ?_⟩
  have hconv : (flDouble b.initialDelayMs).natAbs < 2 ^ 1024 :=
    lt_of_le_of_lt (natAbs_le_natAbs_mul_pow _ _) hof
  unfold ExponentialBackoff.getDelayMs
  rw [if_neg (by omega), if_neg (not_le.mpr hconv), if_neg (not_le.mpr hof)]

/-- Witness for C5: the freshly constructed backoff from the example yields a delay. -/
theorem getDelayMs_total_below_1024_witness :
    ∃ d : ℤ, (ExponentialBackoff.init 100 30000).getDelayMs = Except.ok d :=
  getDelayMs_total_below_1024 (ExponentialBackoff.init 100 30000)
    (by norm_num [ExponentialBackoff.init])
    (by show (flDouble 100 * 2 ^ 0).natAbs < 2 ^ 1024
        rw [flDouble_eq_self 100 (by decide)]
        norm_num)

/-- **C8 counterexample.** At `attempt = 1024` (with `initial_delay_ms = 100`,
`max_delay_ms = 30000`) `get_delay_ms` does not return
`min(initial * 2 ^ attempt, max)`: it raises `OverflowError`. -/
theorem getDelayMs_formula_fails_at_1024 :
    ExponentialBackoff.getDelayMs ⟨100, 30000, 1024⟩ = Except.error "OverflowError" ∧
    ExponentialBackoff.getDelayMs ⟨100, 30000, 1024⟩ ≠
      Except.ok (min ((100 : ℤ) * 2 ^ 1024) 30000) := by
  have h : ExponentialBackoff.getDelayMs ⟨100, 30000, 1024⟩
      = Except.error "OverflowError" := by
    unfold ExponentialBackoff.getDelayMs
    rw [if_pos (by norm_num)]
  exact ⟨h, by rw [h]; exact fun hc => Except.noConfusion hc⟩

/-- **C8 amended.** For every `ExponentialBackoff` whose `initial_delay_ms` the
int-to-float conversion preserves exactly (`|I| < 2 ^ 53`) and every attempt count
`n` below the float-overflow boundary (`n ≤ 1023` and `|I| * 2 ^ n < 2 ^ 1024`),
`get_delay_ms` returns `min(I * 2 ^ n, M)` with no mutation; in particular for
`I = 100, M = 30000` the delays over attempts `0..9` are `100, 200, 400, 800, 1600,
3200, 6400, 12800, 25600, 30000`. Outside the exact regime the conversion rounds
half-even — at `I = 2 ^ 53 + 1` the returned delay is `2 ^ 53`, not `I` — and past
the overflow boundary `get_delay_ms` raises `OverflowError` (counterexample). -/
theorem getDelayMs_min_formula :
    (∀ (I M : ℤ) (n : ℕ), I.natAbs < 2 ^ 53 → n ≤ 1023 →
      (I * 2 ^ n).natAbs < 2 ^ 1024 →
      ExponentialBackoff.getDelayMs ⟨I, M, n⟩ = Except.ok (min (I * 2 ^ n) M)) ∧
    (List.range 10).map (fun n => ExponentialBackoff.getDelayMs ⟨100, 30000, n⟩) =
      [Except.ok 100, Except.ok 200, Except.ok 400, Except.ok 800, Except.ok 1600,
       Except.ok 3200, Except.ok 6400, Except.ok 12800, Except.ok 25600,
       Except.ok 30000] ∧
    ExponentialBackoff.getDelayMs ⟨2 ^ 53 + 1, 2 ^ 60, 0⟩ = Except.ok (2 ^ 53) := by
  refine ⟨?_, ?_, ?_⟩
  · intro I M n hI hn hof
    have hIconv : I.natAbs < 2 ^ 1024 :=
      lt_of_le_of_lt (natAbs_le_natAbs_mul_pow I n) hof
    unfold ExponentialBackoff.getDelayMs
    dsimp only
    rw [flDouble_eq_self I hI]
    rw [if_neg (by omega), if_neg (not_le.mpr hIconv), if_neg (not_le.mpr hof)]
  · have hfl : flDouble 100 = 100 := flDouble_eq_self 100 (by decide)
    norm_num [List.range_succ, ExponentialBackoff.getDelayMs, hfl, min_def]
  · have hfl : flDouble (2 ^ 53 + 1) = 2 ^ 53 := flDouble_pow53_add_one
    unfold ExponentialBackoff.getDelayMs
    dsimp only
    rw [hfl]
    norm_num [min_def]

/-- Witness for C8 at attempt 4: `min(100 * 2 ^ 4, 30000) = 1600`. -/
theorem getDelayMs_min_formula_witness :
    ExponentialBackoff.getDelayMs ⟨100, 30000, 4⟩ =
      Except.ok (min ((100 : ℤ) * 2 ^ 4) 30000) :=
  getDelayMs_min_formula.1 100 30000 4 (by norm_num) (by norm_num) (by norm_num)

/-! ### Claims about `AdaptiveRateLimiter` -/

lemma adaptive_step_inv (a : AdaptiveRateLimiter) (ev : Bool)
    (h0 : 0 ≤ a.minRate) (h1 : a.minRate ≤ a.currentRate) (h2 : a.currentRate ≤ a.maxRate) :
    (if ev then a.recordSuccess else a.recordRateLimitError).minRate = a.minRate ∧
    (if ev then a.recordSuccess else a.recordRateLimitError).maxRate = a.maxRate ∧
    a.minRate ≤ (if ev then a.recordSuccess else a.recordRateLimitError).currentRate ∧
    (if ev then a.recordSuccess else a.recordRateLimitError).currentRate ≤ a.maxRate := by
  have hc : 0 ≤ a.currentRate := le_trans h0 h1
  have hs1 : a.currentRate * (1 / 2) ≤ a.maxRate := by linarith
  have hs2 : a.minRate ≤ a.currentRate * (11 / 10) := by linarith
  cases ev
  · exact ⟨rfl, rfl, le_max_right _ _, max_le hs1 (le_trans h1 h2)⟩
  · exact ⟨rfl, rfl, le_min hs2 (le_trans h1 h2), min_le_right _ _⟩

lemma adaptive_run_inv (evs : List Bool) (a : AdaptiveRateLimiter)
    (h0 : 0 ≤ a.minRate) (h1 : a.minRate ≤ a.currentRate) (h2 : a.currentRate ≤ a.maxRate) :
    (a.run evs).minRate = a.minRate ∧ (a.run evs).maxRate = a.maxRate ∧
    (a.run evs).minRate ≤ (a.run evs).currentRate ∧
    (a.run evs).currentRate ≤ (a.run evs).maxRate := by
  induction evs generalizing a with
  | nil => exact ⟨rfl, rfl, h1, h2⟩
  | cons ev rest ih =>
      rw [AdaptiveRateLimiter.run]
      obtain ⟨e1, e2, e3, e4⟩ := adaptive_step_inv a ev h0 h1 h2
      obtain ⟨f1, f2, f3, f4⟩ := ih _ (e1 ▸ h0) (e1 ▸ e3) (e2 ▸ e4)
      exact ⟨f1.trans e1, f2.trans e2, f3, f4⟩

/-- **C9 counterexample.** The hypothesis of the claim, `minRate ≤ initialRate ≤ maxRate`,
admits negative rates, and there the invariant fails: with
`AdaptiveRateLimiter(initial=-10, min=-10, max=0)` a single `record_success`
multiplies the negative rate by 1.1, giving `min(-11, 0) = -11 < minRate`.
(The exact-double 1.1 is slightly above 11/10, which pushes the float result
even further below `-11`, so the violation also holds in float arithmetic.) -/
theorem adaptive_invariant_cex_negative_rates :
    ((-10 : ℚ) ≤ -10 ∧ (-10 : ℚ) ≤ 0) ∧
    ((AdaptiveRateLimiter.init (-10) (-10) 0).run [true]).currentRate <
      ((AdaptiveRateLimiter.init (-10) (-10) 0).run [true]).minRate := by
  refine ⟨⟨le_refl _, by norm_num⟩, ?_⟩
  show (AdaptiveRateLimiter.run _ [true]).currentRate < _
  rw [AdaptiveRateLimiter.run, AdaptiveRateLimiter.run]
  simp only [if_pos rfl, AdaptiveRateLimiter.recordSuccess, AdaptiveRateLimiter.init]
  norm_num [min_def]

/-- **C9 amended.** For `AdaptiveRateLimiter` constructed with
`0 ≤ minRate ≤ initialRate ≤ maxRate` (nonnegative rates, as every rate in req/sec
is): `record_success` sets the rate to `min(currentRate * 1.1, maxRate)`,
`record_rate_limit_error` sets it to `max(currentRate * 0.5, minRate)`, and after
every sequence of such calls `minRate ≤ currentRate ≤ maxRate` holds. -/
theorem adaptive_rate_clamped (r0 lo hi : ℚ) (evs : List Bool)
    (h0 : 0 ≤ lo) (h1 : lo ≤ r0) (h2 : r0 ≤ hi) :
    (∀ a : AdaptiveRateLimiter,
      (a.recordSuccess).currentRate = min (a.currentRate * (11 / 10)) a.maxRate) ∧
    (∀ a : AdaptiveRateLimiter,
      (a.recordRateLimitError).currentRate = max (a.currentRate * (1 / 2)) a.minRate) ∧
    lo ≤ ((AdaptiveRateLimiter.init r0 lo hi).run evs).currentRate ∧
    ((AdaptiveRateLimiter.init r0 lo hi).run evs).currentRate ≤ hi := by
  obtain ⟨f1, f2, f3, f4⟩ := adaptive_run_inv evs (AdaptiveRateLimiter.init r0 lo hi) h0 h1 h2
  rw [f1] at f3
  rw [f2] at f4
  exact ⟨fun a => rfl, fun a => rfl, f3, f4⟩

/-- Witness for C9: the `AdaptiveRateLimiter(50.0, 5.0, 100.0)` of the example after two
successes and one rate-limit error stays within `[5, 100]`. -/
theorem adaptive_rate_clamped_witness :
    5 ≤ ((AdaptiveRateLimiter.init 50 5 100).run [true, true, false]).currentRate ∧
    ((AdaptiveRateLimiter.init 50 5 100).run [true, true, false]).currentRate ≤ 100 :=
  ⟨(adaptive_rate_clamped 50 5 100 [true, true, false]
      (by norm_num) (by norm_num) (by norm_num)).2.2.1,
   (adaptive_rate_clamped 50 5 100 [true, true, false]
      (by norm_num) (by norm_num) (by norm_num)).2.2.2⟩

/-! ### Claims about construction and `time_until_available_ms` -/

/-- **C1 counterexample.** `TokenBucket(1, 0.0)` has `refillRate ≤ 0`, an invalid
parameter per the claim, yet the constructor (which only assigns fields) returns a
normally usable instance; construction does not fail. The instance then misbehaves
later: after its one token is spent, `time_until_available_ms` divides by
`refill_rate = 0` and raises `ZeroDivisionError`. -/
theorem tokenBucket_invalid_construction_no_failure :
    (TokenBucket.init 1 0 0).capacity = 1 ∧ (TokenBucket.init 1 0 0).refillRate = 0 ∧
    ((TokenBucket.init 1 0 0).tryAcquire 0 1).1 = true ∧
    TokenBucket.timeUntilAvailableMs ((TokenBucket.init 1 0 0).tryAcquire 0 1).2 =
      Except.error "ZeroDivisionError" := by
  have hstate : (TokenBucket.init 1 0 0).tryAcquire 0 1 = (true, ⟨1, 0, 0, 0⟩) := by
    simp only [TokenBucket.init, TokenBucket.tryAcquire, TokenBucket.refill, pyTrunc]
    norm_num
  refine ⟨rfl, rfl, by rw [hstate], ?_⟩
  rw [hstate]
  simp only [TokenBucket.timeUntilAvailableMs]
  norm_num

/-- **C1 amended.** No component constructor validates its parameters: for every
parameter choice, including the invalid ones the claim lists (`capacity < 1` or
`refillRate ≤ 0`; `maxRequests < 1` or `windowDuration ≤ 0`;
`initialDelay > maxDelay`; `minRate > maxRate`), construction succeeds and stores
the parameters verbatim; any misbehaviour surfaces lazily during later use. -/
theorem constructors_store_invalid_params
    (c : ℤ) (r : ℚ) (t : ℚ) (m : ℤ) (wd : ℚ) (i0 d0 : ℤ) (r0 lo hi : ℚ)
    (_hTB : c < 1 ∨ r ≤ 0) (_hSW : m < 1 ∨ wd ≤ 0) (_hEB : d0 < i0) (_hAD : hi < lo) :
    TokenBucket.init c r t = ⟨c, c, r, t⟩ ∧
    SlidingWindow.init m wd = ⟨m, wd, []⟩ ∧
    ExponentialBackoff.init i0 d0 = ⟨i0, d0, 0⟩ ∧
    AdaptiveRateLimiter.init r0 lo hi = ⟨r0, lo, hi⟩ :=
  ⟨rfl, rfl, rfl, rfl⟩

/-- Witness for C1: concrete invalid parameters for all four constructors. -/
theorem constructors_store_invalid_params_witness :
    TokenBucket.init 0 (-1) 0 = ⟨0, 0, -1, 0⟩ ∧
    SlidingWindow.init 0 0 = ⟨0, 0, []⟩ ∧
    ExponentialBackoff.init 5 1 = ⟨5, 1, 0⟩ ∧
    AdaptiveRateLimiter.init 0 1 0 = ⟨0, 1, 0⟩ :=
  constructors_store_invalid_params 0 (-1) 0 0 0 5 1 0 1 0
    (Or.inl (by norm_num)) (Or.inl (by norm_num)) (by norm_num) (by norm_num)

/-- **C2 counterexample.** A `TokenBucket(1, 3.0)` drained to zero tokens (reachable
by one `try_acquire()`), with `refillRate = 3 > 0`: `time_until_available_ms`
returns `int(1.0 / 3 * 1000) = 333`, while `ceil(1000 / 3) = 334`. The source
truncates; it does not take the ceiling. -/
theorem timeUntilAvailableMs_not_ceil_cex :
    TokenBucket.timeUntilAvailableMs ((TokenBucket.init 1 3 0).tryAcquire 0 1).2 =
      Except.ok 333 ∧ (⌈(1000 : ℚ) / 3⌉ : ℤ) = 334 := by
  have hstate : (TokenBucket.init 1 3 0).tryAcquire 0 1 = (true, ⟨1, 0, 3, 0⟩) := by
    simp only [TokenBucket.init, TokenBucket.tryAcquire, TokenBucket.refill, pyTrunc]
    norm_num
  constructor
  · rw [hstate]
    simp only [TokenBucket.timeUntilAvailableMs]
    rw [if_neg (by norm_num), if_neg (by norm_num)]
    rw [pyTrunc_eq_floor _ (by norm_num)]
    have : ⌊(1 : ℚ) / 3 * 1000⌋ = 333 := by
      rw [Int.floor_eq_iff]
      constructor <;> norm_num
    rw [this]
  · rw [Int.ceil_eq_iff]
    constructor <;> norm_num

/-- **C2 amended.** For every `TokenBucket` with `refillRate R > 0`:
`time_until_available_ms` returns `0` when at least one token is present, and
otherwise returns `floor(1000 / R)` — the Python `int()` truncation of
`1.0 / R * 1000` — which agrees with `ceil(1000 / R)` only when `R` divides 1000
evenly. -/
theorem timeUntilAvailableMs_floor_spec (b : TokenBucket) (hR : 0 < b.refillRate) :
    (0 < b.tokens → b.timeUntilAvailableMs = Except.ok 0) ∧
    (b.tokens ≤ 0 → b.timeUntilAvailableMs = Except.ok ⌊1000 / b.refillRate⌋) := by
  constructor
  · intro h
    simp [TokenBucket.timeUntilAvailableMs, h]
  · intro h
    have harg : (0 : ℚ) ≤ 1 / b.refillRate * 1000 := by positivity
    simp only [TokenBucket.timeUntilAvailableMs, if_neg (not_lt.mpr h),
      if_neg (ne_of_gt hR)]
    rw [pyTrunc_eq_floor _ harg]
    have : (1 : ℚ) / b.refillRate * 1000 = 1000 / b.refillRate := by ring
    rw [this]

/-- Witness for C2: a drained bucket with rate 2 waits `floor(1000 / 2)` ms. -/
theorem timeUntilAvailableMs_floor_spec_witness :
    TokenBucket.timeUntilAvailableMs ⟨1, 0, 2, 0⟩ =
      Except.ok ⌊(1000 : ℚ) / (2 : ℚ)⌋ :=
  (timeUntilAvailableMs_floor_spec ⟨1, 0, 2, 0⟩ (by norm_num)).2 (by norm_num)
